import Mathlib

/-!
Verification of the per-image cleaning-check analysis pipeline
(`chatgpt_cleaning_check.py`): text-rule verdict refinement, score
thresholding, retry policy, quality flags, and the batch orchestrator
`analyze_headless`.

Modelling conventions:
* Python strings are Lean `String`s; regex/substring matching is done over
  `List Char` (Python operates on unicode code points, as does Lean).
* The regexes `NEG_AFTER`, `NEG_BEFORE`, `POS_NEAR`, `POS_ANY`, `ANY_KW` are
  alternations of literals joined by `.\x7b0,12\x7d` gaps; `.` matches any
  character except a newline, so a gap is at most 12 non-newline characters.
  Only the existence of a match (`re.search` truthiness) is relevant.
* Python floats are modelled as rationals (`ℚ`).
* Python dicts read with `.get` are modelled as structures of `Option` fields
  (for the two configuration dicts) or association lists (for JSON objects).
* Exceptions are modelled with `Except`; the external image decoder and the
  remote classification call are oracle functions in an `Env` record.
-/

/-- `KW` regex alternatives (line 39). -/
def KW_LITS : List String := ["髪の毛", "毛髪", "抜け毛", "ほこり", "ホコリ", "埃"]

/-- `NEG` regex alternatives (lines 40-44). -/
def NEG_LITS : List String :=
  ["ない", "ありません", "無し", "なし", "見当たらない", "見受けられません",
   "ほぼない", "ほとんどない", "少ない", "目立たない", "見られません", "認められません",
   "見受けにくい", "確認できず", "確認できません"]

/-- `POS` regex alternatives (line 45). -/
def POS_LITS : List String :=
  ["清潔", "清掃状態は良好", "概ね良好", "問題なし", "良好", "綺麗", "きれい",
   "整頓", "整えられている", "清潔感がある", "不自然な点はない", "不自然さは感じられない"]

def litsC (ls : List String) : List (List Char) := ls.map String.toList

/-- Does some pattern of `pats` start after a gap of at most `b` non-newline
characters?  This is the `.\x7b0,12\x7dPAT` part of the compiled regexes. -/
def gapScan (pats : List (List Char)) : Nat → List Char → Bool
  | 0, cs => pats.any fun p => p.isPrefixOf cs
  | _ + 1, [] => pats.any fun p => p.isPrefixOf ([] : List Char)
  | b + 1, c :: cs =>
      (pats.any fun p => p.isPrefixOf (c :: cs)) || (c != '\n' && gapScan pats b cs)

/-- Match `A.\x7b0,g\x7dB` anchored at the current position. -/
def matchHere (as bs : List (List Char)) (g : Nat) (cs : List Char) : Bool :=
  as.any fun a => a.isPrefixOf cs && gapScan bs g (cs.drop a.length)

/-- Generic unanchored scan: try a position predicate at every suffix. -/
def scanB (f : List Char → Bool) : List Char → Bool
  | [] => f []
  | c :: cs => f (c :: cs) || scanB f cs

/-- `re.search` for `A.\x7b0,g\x7dB` where `A`, `B` are literal alternations. -/
def searchPair (as bs : List (List Char)) (g : Nat) (cs : List Char) : Bool :=
  scanB (matchHere as bs g) cs

/-- `re.search` for a single literal; also Python's `w in txt` substring test. -/
def searchLit (p : List Char) (cs : List Char) : Bool :=
  scanB (fun suf => p.isPrefixOf suf) cs

/-- Python `needle in hay` on strings. -/
def strContains (hay needle : String) : Bool := searchLit needle.toList hay.toList

/-- `re.search` for an alternation of literals. -/
def searchAny (pats : List (List Char)) (cs : List Char) : Bool :=
  pats.any fun p => searchLit p cs

/-- `NEG_AFTER.search(txt)` truthiness (line 47). -/
def neg_after_search (txt : String) : Bool :=
  searchPair (litsC KW_LITS) (litsC NEG_LITS) 12 txt.toList

/-- `NEG_BEFORE.search(txt)` truthiness (line 48). -/
def neg_before_search (txt : String) : Bool :=
  searchPair (litsC NEG_LITS) (litsC KW_LITS) 12 txt.toList

/-- `POS_ANY.search(txt)` truthiness (line 49). -/
def pos_any_search (txt : String) : Bool := searchAny (litsC POS_LITS) txt.toList

/-- `POS_NEAR.search(txt)` truthiness (line 50). -/
def pos_near_search (txt : String) : Bool :=
  searchPair (litsC KW_LITS) (litsC POS_LITS) 12 txt.toList ||
    searchPair (litsC POS_LITS) (litsC KW_LITS) 12 txt.toList

/-- `ANY_KW.search(txt)` truthiness (line 51). -/
def any_kw_search (txt : String) : Bool := searchAny (litsC KW_LITS) txt.toList

/-- `" ".join(comments)`. -/
def commentBlob (comments : List String) : String := String.intercalate " " comments

/-- `refine_verdict_by_text` (lines 120-131). -/
def refine_verdict_by_text (verdict : String) (comments : List String)
    (ok_whitelist : List String) : String :=
  let txt := commentBlob comments
  if ok_whitelist.any fun w => w != "" && strContains txt w then "ok"
  else if neg_after_search txt || neg_before_search txt || pos_near_search txt then "ok"
  else if pos_any_search txt then "ok"
  else if any_kw_search txt then "ng"
  else verdict

/-- `force_recheck_by_text` (lines 134-139). -/
def force_recheck_by_text (verdict : String) (comments : List String)
    (recheck_words : List String) : String :=
  let txt := commentBlob comments
  if recheck_words.any fun w => w != "" && strContains txt w then "unknown" else verdict

/-- Score-threshold stage (line 276):
`"ng" if any(v >= th for v in scores.values()) else "ok"`. -/
def scoreVerdict (scores : List (String × ℚ)) (th : ℚ) : String :=
  if scores.any fun p => th ≤ p.2 then "ng" else "ok"

/-- Python `str.strip()` (leading/trailing whitespace removed). -/
def pyStrip (s : String) : String :=
  ⟨((s.toList.dropWhile Char.isWhitespace).reverse.dropWhile Char.isWhitespace).reverse⟩

/-- Split a character list at every occurrence of `sep` (Python `str.split`
with a one-character separator). -/
def splitOnChar (sep : Char) : List Char → List (List Char)
  | [] => [[]]
  | c :: cs =>
    if c = sep then [] :: splitOnChar sep cs
    else
      match splitOnChar sep cs with
      | [] => [[c]]
      | g :: gs => (c :: g) :: gs

/-- `_split_lines` (lines 279-280): split on newlines, strip, drop empties. -/
def split_lines (t : String) : List String :=
  ((splitOnChar '\n' t.toList).map fun cs => pyStrip ⟨cs⟩).filter fun s => s != ""

/-- `os.path.basename` for POSIX paths. -/
def pyBasename (s : String) : String :=
  match (splitOnChar '/' s.toList).getLast? with
  | some t => ⟨t⟩
  | none => s

/-- Python `f"[n]:04d[/n]"` zero padding. -/
def pad4 (n : Nat) : String :=
  let s := toString n
  String.mk (List.replicate (4 - s.length) '0') ++ s

/-- A JSON scalar as it may appear in a `presence` object: Python
`isinstance(v, bool)` distinguishes real booleans from everything else. -/
inductive PVal
  | pbool (b : Bool)
  | pnull
  | pnum (q : ℚ)
  | pstr (s : String)
deriving DecidableEq, Repr

/-- `dict.get k` on a JSON object (unique keys, first binding wins). -/
def pyGet {α : Type} (m : List (String × α)) (k : String) : Option α :=
  (m.find? fun p => p.1 == k).map Prod.snd

/-- The structured classification response after the normalization of
lines 269-272 (labels list, score map, comment list, presence map). -/
structure ClassResp where
  labels : List String
  scores : List (String × ℚ)
  comments : List String
  presence : List (String × PVal)
deriving DecidableEq, Repr

/-- `defaults` dict: the keys `_analyze_one` reads from it. -/
structure Defaults where
  conf_th : Option ℚ
  ok_whitelist_global : Option String
  ok_whitelist : Option String
deriving DecidableEq, Repr

/-- `thresholds` dict: the keys the pipeline reads from it. -/
structure Thresholds where
  conf_th : Option ℚ
  OK_WHITELIST : Option (List String)
  RECHECK_WHITELIST : Option (List String)
deriving DecidableEq, Repr

/-- Line 275: `float(defaults.get("conf_th", thresholds.get("conf_th", 0.6)))`. -/
def conf_th_effective (defaults : Defaults) (thresholds : Thresholds) : ℚ :=
  defaults.conf_th.getD (thresholds.conf_th.getD (6 / 10))

/-- `OpenAIClient.__init__` keeps a stripped model name and a client object
only when the stripped api key is non-empty (lines 143-160). -/
structure OpenAIClient where
  model_name : String
  hasKey : Bool
deriving DecidableEq, Repr

def mkClient (model_name : String) (api_key : Option String) : OpenAIClient :=
  { model_name := pyStrip model_name, hasKey := pyStrip (api_key.getD "") != "" }

/-- `OpenAIClient.available` (lines 162-163). -/
def OpenAIClient.available (c : OpenAIClient) : Bool :=
  c.hasKey && c.model_name != ""

/-- tenacity `wait_exponential(multiplier, max, exp_base := 2, min).__call__`:
`max(max(0, min), min(multiplier * 2 ^ (attempt_number - 1), max))`. -/
def wait_exponential (multiplier mn mx : ℚ) (attempt_number : Nat) : ℚ :=
  max (max 0 mn) (min (multiplier * 2 ^ (attempt_number - 1)) mx)

/-- The wait before the next attempt after failed attempt `n`, with the
decorator arguments of line 172: `multiplier=1, min=1, max=30`. -/
def retryWait (attempt_number : Nat) : ℚ := wait_exponential 1 1 30 attempt_number

/-- tenacity `stop_after_attempt(3)` with `reraise=True` and
`retry_if_exception_type(Exception)` (lines 169-174): run attempts 0, 1, 2 of
the wrapped body, return the first success, re-raise the last failure. -/
def retry3 {α : Type} (attempt : Nat → Except String α) : Except String α :=
  match attempt 0 with
  | .ok a => .ok a
  | .error _ =>
    match attempt 1 with
    | .ok a => .ok a
    | .error _ => attempt 2

/-- `OpenAIClient.analyze_one` (lines 169-221): each attempt raises when the
client is unavailable, otherwise performs the remote call; `attempt n` is the
oracle outcome (response, or any exception including parse errors) of the
`n`-th remote call for this image. -/
def OpenAIClient.analyze_one (c : OpenAIClient) (attempt : Nat → Except String ClassResp) :
    Except String ClassResp :=
  retry3 fun n => if c.available then attempt n else .error "OpenAIClient not available"

/-- Oracle measurements of one decoded image, as consumed by
`_calc_basic_quality_flags`: each field is the outcome of the corresponding
numpy/cv2 evaluation, `none` meaning that evaluation raises. -/
structure QualityProbe where
  lapVar : Option ℚ
  meanLum : Option ℚ
  overFrac : Option ℚ
deriving DecidableEq, Repr

/-- The mean-luminance and overexposure checks (lines 87-92), appending to the
flags accumulated so far; an exception returns the accumulated flags because
the surrounding `except Exception: pass` falls through to `return flags`. -/
def darkOverSteps (p : QualityProbe) (flags : List String) : List String :=
  match p.meanLum with
  | none => flags
  | some m =>
    let flags := if m < 60 then flags ++ ["dark"] else flags
    match p.overFrac with
    | none => flags
    | some o => if 2 / 5 < o then flags ++ ["overexpose"] else flags

/-- `_calc_basic_quality_flags` (lines 79-95). -/
def _calc_basic_quality_flags (hasCV2 : Bool) (p : QualityProbe) : List String :=
  if hasCV2 then
    match p.lapVar with
    | none => []
    | some v => darkOverSteps p (if v < 80 then ["blur"] else [])
  else darkOverSteps p []

/-- `ImageResult` (lines 54-64), as the dict literal of lines 298-308. -/
structure ImageResult where
  index : Nat
  file : String
  labels : List String
  scores : List (String × ℚ)
  comments : List String
  quality_flags : List String
  verdict : String
  stage : String
  presence : List (String × PVal)
deriving DecidableEq, Repr

/-- The only exception kind that escapes `_analyze_one`: an unreadable image
(`load_and_resize` on line 253 is not wrapped in try/except). -/
inductive AErr
  | decodeError
deriving DecidableEq, Repr

/-- One input of `analyze_headless`: the `(filename, bytes)` tuple form used
by the callers (`services.run_analysis_and_record`); `raw` is an opaque
identifier of the byte payload. -/
structure Blob where
  name : Option String
  raw : Nat
deriving DecidableEq, Repr

/-- External world: cv2 availability, the image decoder (`none` = the bytes
are not a recognized image, PIL raises), and the remote classification call
(per image payload, per attempt). -/
structure Env where
  hasCV2 : Bool
  decode : Nat → Option QualityProbe
  attempt : Nat → Nat → Except String ClassResp

/-- Dry-run placeholder response when the client is unavailable
(lines 261-265). -/
def dryRunResp : ClassResp :=
  { labels := [], scores := [("quality", 0)],
    comments := ["（ドライラン）APIキー未設定のため実解析は未実施"], presence := [] }

/-- Failure placeholder response when the classification call fails after all
retries (line 267). -/
def failResp (e : String) : ClassResp :=
  { labels := [], scores := [("quality", 0)], comments := ["nano失敗: " ++ e],
    presence := [] }

/-- The three-stage verdict computation of lines 275-287: score threshold,
then text refinement, then forced recheck. -/
def verdictPipeline (scores : List (String × ℚ)) (comments : List String) (th : ℚ)
    (ok_whitelist recheck_words : List String) : String :=
  force_recheck_by_text
    (refine_verdict_by_text (scoreVerdict scores th) comments ok_whitelist)
    comments recheck_words

/-- `_analyze_one` (lines 225-308). -/
def _analyze_one (env : Env) (nano : OpenAIClient) (thresholds : Thresholds)
    (defaults : Defaults) (index : Nat) (blob : Blob) : Except AErr ImageResult :=
  let src_name := blob.name.getD (pad4 index ++ ".jpg")
  match env.decode blob.raw with
  | none => .error AErr.decodeError
  | some probe =>
    let qflags := _calc_basic_quality_flags env.hasCV2 probe
    let d : ClassResp :=
      if nano.available then
        match OpenAIClient.analyze_one nano (env.attempt blob.raw) with
        | .ok resp => resp
        | .error e => failResp e
      else dryRunResp
    let th := conf_th_effective defaults thresholds
    let ok_whitelist_global := split_lines (defaults.ok_whitelist_global.getD "")
    let ok_whitelist_user := split_lines (defaults.ok_whitelist.getD "")
    let recheck_words := thresholds.RECHECK_WHITELIST.getD []
    let verdict :=
      verdictPipeline d.scores d.comments th (ok_whitelist_global ++ ok_whitelist_user)
        recheck_words
    .ok
      { index := index,
        file := pad4 index ++ "_" ++ pyBasename src_name,
        labels := d.labels,
        scores := d.scores,
        comments := d.comments,
        quality_flags := qflags,
        verdict := verdict,
        stage := "nano",
        presence := d.presence }

/-- `counts_by_stage` of the summary (lines 410-414). -/
structure StageCounts where
  nano : Nat
  mini : Nat
  full : Nat
deriving DecidableEq, Repr

/-- The `summary` dict of lines 406-416. -/
structure JobSummary where
  ok : Nat
  ng : Nat
  unknown : Nat
  counts_by_stage : StageCounts
  presence_evidence : List (String × List Nat)
deriving DecidableEq, Repr

def presenceKeys : List String := ["key", "wifi", "heater", "tv"]

/-- `isinstance(v, bool) and v` (line 403). -/
def isTrueBool : Option PVal → Bool
  | some (PVal.pbool true) => true
  | _ => false

/-- Presence-evidence aggregation (lines 397-404): for each amenity key, the
indices of the results whose presence entry is boolean `True`, in result-list
order. -/
def presence_evidence_of (results : List ImageResult) : List (String × List Nat) :=
  presenceKeys.map fun k =>
    (k, results.filterMap fun r =>
      if isTrueBool (pyGet r.presence k) then some r.index else none)

/-- Summary computation over the sorted result list (lines 397-416). -/
def mkSummary (results : List ImageResult) : JobSummary :=
  { ok := results.countP fun r => r.verdict == "ok",
    ng := results.countP fun r => r.verdict == "ng",
    unknown := results.countP fun r => r.verdict == "unknown",
    counts_by_stage :=
      { nano := results.countP fun r => r.stage == "nano",
        mini := results.countP fun r => r.stage == "mini",
        full := results.countP fun r => r.stage == "full" },
    presence_evidence := presence_evidence_of results }

/-- Lines 378-379: `defaults.setdefault("ok_whitelist_global",
"\n".join(thresholds["OK_WHITELIST"]))` when that key holds a list. -/
def applyOkWhitelistDefault (thresholds : Thresholds) (defaults : Defaults) : Defaults :=
  match defaults.ok_whitelist_global, thresholds.OK_WHITELIST with
  | none, some l => { defaults with ok_whitelist_global := some (String.intercalate "\n" l) }
  | _, _ => defaults

/-- `enumerate(files)` fan-out of line 390: one future per input position. -/
def dispatchFrom (env : Env) (nano : OpenAIClient) (thresholds : Thresholds)
    (defaults : Defaults) : Nat → List Blob → List (Except AErr ImageResult)
  | _, [] => []
  | i, b :: bs =>
      _analyze_one env nano thresholds defaults i b ::
        dispatchFrom env nano thresholds defaults (i + 1) bs

/-- The futures submitted by `analyze_headless` (lines 381-390), including the
client construction `OpenAIClient("gpt-5-nano", api_key)` and the whitelist
setdefault. -/
def headlessFutures (env : Env) (files : List Blob) (thresholds : Thresholds)
    (defaults : Defaults) (api_key : String) : List (Except AErr ImageResult) :=
  dispatchFrom env (mkClient "gpt-5-nano" (some api_key)) thresholds
    (applyOkWhitelistDefault thresholds defaults) 0 files

/-- The `as_completed` collection loop (lines 391-394): `fu.result()`
re-raises the first exception met in completion order, otherwise all results
are gathered. -/
def collect : List (Except AErr ImageResult) → Except AErr (List ImageResult)
  | [] => .ok []
  | .error e :: _ => .error e
  | .ok r :: rest => (collect rest).map fun rs => r :: rs

/-- Completion order of the worker pool: the futures are consumed in the
order given by the position list `σ` (a permutation of the positions). -/
def reorder {α : Type} (σ : List Nat) (xs : List α) : List α :=
  σ.filterMap fun i => xs[i]?

/-- Line 395: `results.sort(key=lambda x: x.get("index", 0))` — an ascending
sort by index (the dispatched indices are distinct, so any comparison sort by
`index` agrees with Python's stable sort here). -/
def sortByIndex (rs : List ImageResult) : List ImageResult :=
  List.insertionSort (fun a b => a.index ≤ b.index) rs

/-- `analyze_headless` (lines 367-417), returning the summary and the sorted
result list; the scratch directory and job id are outside the model.  `σ` is
the completion order of the worker pool. -/
def analyze_headless (env : Env) (files : List Blob) (thresholds : Thresholds)
    (defaults : Defaults) (api_key : String) (σ : List Nat) :
    Except AErr (JobSummary × List ImageResult) :=
  (collect (reorder σ (headlessFutures env files thresholds defaults api_key))).map
    fun rs =>
      let sorted := sortByIndex rs
      (mkSummary sorted, sorted)

/-! ## Correctness of the scanning matchers -/

lemma isPrefixOf_exists_append (p cs : List Char) :
    p.isPrefixOf cs = true ↔ ∃ t, cs = p ++ t := by
  induction p generalizing cs with
  | nil => simp [List.isPrefixOf]
  | cons a as ih =>
    cases cs with
    | nil => simp [List.isPrefixOf]
    | cons c cs' =>
      simp only [List.isPrefixOf, Bool.and_eq_true, beq_iff_eq, ih, List.cons_append,
        List.cons.injEq]
      constructor
      · rintro ⟨rfl, t, rfl⟩; exact ⟨t, rfl, rfl⟩
      · rintro ⟨t, rfl, rfl⟩; exact ⟨rfl, t, rfl⟩

lemma scanB_iff (f : List Char → Bool) (cs : List Char) :
    scanB f cs = true ↔ ∃ pre post, cs = pre ++ post ∧ f post = true := by
  induction cs with
  | nil =>
    simp only [scanB]
    constructor
    · intro h; exact ⟨[], [], rfl, h⟩
    · rintro ⟨pre, post, heq, hf⟩
      obtain ⟨rfl, rfl⟩ : pre = [] ∧ post = [] := by
        constructor <;> [cases pre; cases post] <;> simp_all
      exact hf
  | cons c cs ih =>
    simp only [scanB, Bool.or_eq_true, ih]
    constructor
    · rintro (h | ⟨pre, post, rfl, hf⟩)
      · exact ⟨[], c :: cs, rfl, h⟩
      · exact ⟨c :: pre, post, rfl, hf⟩
    · rintro ⟨pre, post, heq, hf⟩
      cases pre with
      | nil =>
        left
        rw [List.nil_append] at heq
        rw [heq]; exact hf
      | cons x pre' =>
        right
        rw [List.cons_append, List.cons.injEq] at heq
        exact ⟨pre', post, heq.2, hf⟩

lemma gapScan_iff (pats : List (List Char)) (b : Nat) (cs : List Char) :
    gapScan pats b cs = true ↔
      ∃ p ∈ pats, ∃ mid post, cs = mid ++ p ++ post ∧ mid.length ≤ b ∧ '\n' ∉ mid := by
  induction b generalizing cs with
  | zero =>
    simp only [gapScan, List.any_eq_true, isPrefixOf_exists_append]
    constructor
    · rintro ⟨p, hp, t, rfl⟩
      exact ⟨p, hp, [], t, by simp, by simp, by simp⟩
    · rintro ⟨p, hp, mid, post, heq, hlen, -⟩
      obtain rfl : mid = [] := List.length_eq_zero.mp (Nat.le_zero.mp hlen)
      exact ⟨p, hp, post, by simpa using heq⟩
  | succ b ih =>
    cases cs with
    | nil =>
      simp only [gapScan, List.any_eq_true, isPrefixOf_exists_append]
      constructor
      · rintro ⟨p, hp, t, ht⟩
        obtain ⟨rfl, rfl⟩ := List.append_eq_nil.mp ht.symm
        exact ⟨[], hp, [], [], rfl, by simp, by simp⟩
      · rintro ⟨p, hp, mid, post, heq, -, -⟩
        obtain ⟨h12, rfl⟩ := List.append_eq_nil.mp heq.symm
        obtain ⟨rfl, rfl⟩ := List.append_eq_nil.mp h12
        exact ⟨[], hp, [], rfl⟩
    | cons c cs' =>
      simp only [gapScan, Bool.or_eq_true, Bool.and_eq_true, List.any_eq_true,
        isPrefixOf_exists_append, bne_iff_ne, ne_eq, ih]
      constructor
      · rintro (⟨p, hp, t, heq⟩ | ⟨hc, p, hp, mid, post, rfl, hlen, hnl⟩)
        · exact ⟨p, hp, [], t, by simpa using heq, by simp, by simp⟩
        · refine ⟨p, hp, c :: mid, post, by simp, by simpa using hlen, ?_⟩
          simp only [List.mem_cons, not_or]
          exact ⟨fun h => hc h.symm, hnl⟩
      · rintro ⟨p, hp, mid, post, heq, hlen, hnl⟩
        cases mid with
        | nil =>
          left
          exact ⟨p, hp, post, by simpa using heq⟩
        | cons x mid' =>
          right
          rw [List.cons_append, List.cons_append, List.cons.injEq] at heq
          obtain ⟨rfl, heq2⟩ := heq
          simp only [List.mem_cons, not_or] at hnl
          refine ⟨fun h => hnl.1 h.symm, p, hp, mid', post, heq2, ?_, hnl.2⟩
          simpa using hlen
        
lemma searchLit_iff (p cs : List Char) :
    searchLit p cs = true ↔ ∃ pre post, cs = pre ++ p ++ post := by
  simp only [searchLit, scanB_iff, isPrefixOf_exists_append]
  constructor
  · rintro ⟨pre, post, rfl, t, rfl⟩
    exact ⟨pre, t, by simp [List.append_assoc]⟩
  · rintro ⟨pre, post, rfl⟩
    exact ⟨pre, p ++ post, by simp [List.append_assoc], post, rfl⟩

lemma matchHere_iff (as bs : List (List Char)) (g : Nat) (cs : List Char) :
    matchHere as bs g cs = true ↔
      ∃ a ∈ as, ∃ t, cs = a ++ t ∧ gapScan bs g t = true := by
  simp only [matchHere, List.any_eq_true, Bool.and_eq_true, isPrefixOf_exists_append]
  constructor
  · rintro ⟨a, ha, ⟨t, rfl⟩, hg⟩
    exact ⟨a, ha, t, rfl, by simpa [List.drop_left] using hg⟩
  · rintro ⟨a, ha, t, rfl, hg⟩
    exact ⟨a, ha, ⟨t, rfl⟩, by simpa [List.drop_left] using hg⟩

lemma searchPair_iff (as bs : List (List Char)) (g : Nat) (cs : List Char) :
    searchPair as bs g cs = true ↔
      ∃ a ∈ as, ∃ b ∈ bs, ∃ pre mid post,
        cs = pre ++ a ++ mid ++ b ++ post ∧ mid.length ≤ g ∧ '\n' ∉ mid := by
  simp only [searchPair, scanB_iff, matchHere_iff, gapScan_iff]
  constructor
  · rintro ⟨pre, suf, rfl, a, ha, t, rfl, p, hp, mid, post, rfl, hlen, hnl⟩
    exact ⟨a, ha, p, hp, pre, mid, post, by simp [List.append_assoc], hlen, hnl⟩
  · rintro ⟨a, ha, p, hp, pre, mid, post, rfl, hlen, hnl⟩
    exact ⟨pre, a ++ (mid ++ (p ++ post)), by simp [List.append_assoc],
           a, ha, mid ++ (p ++ post), rfl,
           p, hp, mid, post, by simp [List.append_assoc], hlen, hnl⟩

/-! ## String-level match predicates (specification side) -/

/-- `w` occurs as a literal substring of `txt`. -/
def ContainsLit (txt w : String) : Prop :=
  ∃ pre post : List Char, txt.toList = pre ++ w.toList ++ post

/-- Some non-empty whitelist entry occurs in `txt`. -/
def WhitelistHit (wl : List String) (txt : String) : Prop :=
  ∃ w ∈ wl, w ≠ "" ∧ ContainsLit txt w

/-- Some literal of `as` is followed, within a gap of at most 12 non-newline
characters, by some literal of `bs`. -/
def PairNear (as bs : List String) (txt : String) : Prop :=
  ∃ a ∈ as, ∃ b ∈ bs, ∃ pre mid post : List Char,
    txt.toList = pre ++ a.toList ++ mid ++ b.toList ++ post ∧
      mid.length ≤ 12 ∧ '\n' ∉ mid

/-- Some literal of `ls` occurs anywhere in `txt`. -/
def LitAnywhere (ls : List String) (txt : String) : Prop :=
  ∃ w ∈ ls, ContainsLit txt w

/-- The stage-(b) condition of the text refinement: a cleanliness keyword
followed within 12 characters by a negation, preceded within 12 characters by
a negation, or within 12 characters of a positive-cleanliness term in either
direction. -/
def NearRule (txt : String) : Prop :=
  PairNear KW_LITS NEG_LITS txt ∨ PairNear NEG_LITS KW_LITS txt ∨
    PairNear KW_LITS POS_LITS txt ∨ PairNear POS_LITS KW_LITS txt

lemma strContains_iff (hay needle : String) :
    strContains hay needle = true ↔ ContainsLit hay needle := by
  simp [strContains, searchLit_iff, ContainsLit]

lemma whitelistAny_iff (wl : List String) (txt : String) :
    (wl.any fun w => w != "" && strContains txt w) = true ↔ WhitelistHit wl txt := by
  simp only [List.any_eq_true, Bool.and_eq_true, bne_iff_ne, ne_eq, strContains_iff,
    WhitelistHit]

lemma searchPairS_iff (as bs : List String) (txt : String) :
    searchPair (litsC as) (litsC bs) 12 txt.toList = true ↔ PairNear as bs txt := by
  rw [searchPair_iff]
  simp only [litsC, List.mem_map, PairNear]
  constructor
  · rintro ⟨a, ⟨wa, hwa, rfl⟩, b, ⟨wb, hwb, rfl⟩, pre, mid, post, heq, hlen, hnl⟩
    exact ⟨wa, hwa, wb, hwb, pre, mid, post, heq, hlen, hnl⟩
  · rintro ⟨wa, hwa, wb, hwb, pre, mid, post, heq, hlen, hnl⟩
    exact ⟨wa.toList, ⟨wa, hwa, rfl⟩, wb.toList, ⟨wb, hwb, rfl⟩, pre, mid, post,
      heq, hlen, hnl⟩

lemma searchAnyS_iff (ls : List String) (txt : String) :
    searchAny (litsC ls) txt.toList = true ↔ LitAnywhere ls txt := by
  simp only [searchAny, List.any_eq_true, litsC, List.mem_map, searchLit_iff,
    LitAnywhere, ContainsLit]
  constructor
  · rintro ⟨p, ⟨w, hw, rfl⟩, pre, post, heq⟩
    exact ⟨w, hw, pre, post, heq⟩
  · rintro ⟨w, hw, pre, post, heq⟩
    exact ⟨w.toList, ⟨w, hw, rfl⟩, pre, post, heq⟩

lemma nearRuleB_iff (txt : String) :
    (neg_after_search txt || neg_before_search txt || pos_near_search txt) = true ↔
      NearRule txt := by
  simp only [neg_after_search, neg_before_search, pos_near_search, Bool.or_eq_true,
    searchPairS_iff, NearRule]
  tauto

lemma pos_any_iff (txt : String) :
    pos_any_search txt = true ↔ LitAnywhere POS_LITS txt := searchAnyS_iff _ _

lemma any_kw_iff (txt : String) :
    any_kw_search txt = true ↔ LitAnywhere KW_LITS txt := searchAnyS_iff _ _

/-! ## Claim theorems: text rules and thresholds -/

/-- C3: `refine_verdict_by_text` applies exactly this precedence to the
space-joined comment blob: (a) a non-empty OK-whitelist literal occurring in
the blob forces "ok"; (b) otherwise a cleanliness keyword with a negation
within 12 characters after or before it, or within 12 characters of a
positive-cleanliness term in either direction, forces "ok"; (c) otherwise a
standalone positive-cleanliness phrase anywhere forces "ok"; (d) otherwise a
raw keyword anywhere forces "ng"; (e) otherwise the input verdict is returned
unchanged.  (Gaps are 12 characters in the sense of the regex dot: newlines
cannot occur inside a gap.) -/
theorem c3_refine_text_precedence (v : String) (comments ok_whitelist : List String) :
    (WhitelistHit ok_whitelist (commentBlob comments) →
        refine_verdict_by_text v comments ok_whitelist = "ok")
    ∧ (¬ WhitelistHit ok_whitelist (commentBlob comments) →
        NearRule (commentBlob comments) →
        refine_verdict_by_text v comments ok_whitelist = "ok")
    ∧ (¬ WhitelistHit ok_whitelist (commentBlob comments) →
        ¬ NearRule (commentBlob comments) →
        LitAnywhere POS_LITS (commentBlob comments) →
        refine_verdict_by_text v comments ok_whitelist = "ok")
    ∧ (¬ WhitelistHit ok_whitelist (commentBlob comments) →
        ¬ NearRule (commentBlob comments) →
        ¬ LitAnywhere POS_LITS (commentBlob comments) →
        LitAnywhere KW_LITS (commentBlob comments) →
        refine_verdict_by_text v comments ok_whitelist = "ng")
    ∧ (¬ WhitelistHit ok_whitelist (commentBlob comments) →
        ¬ NearRule (commentBlob comments) →
        ¬ LitAnywhere POS_LITS (commentBlob comments) →
        ¬ LitAnywhere KW_LITS (commentBlob comments) →
        refine_verdict_by_text v comments ok_whitelist = v) := by
  refine ⟨fun h1 => ?_, fun h1 h2 => ?_, fun h1 h2 h3 => ?_,
    fun h1 h2 h3 h4 => ?_, fun h1 h2 h3 h4 => ?_⟩
  · have e1 := (whitelistAny_iff ok_whitelist (commentBlob comments)).mpr h1
    simp [refine_verdict_by_text, e1]
  · have e1 : (ok_whitelist.any fun w => w != "" && strContains (commentBlob comments) w)
        = false := by
      simpa using (whitelistAny_iff ok_whitelist (commentBlob comments)).not.mpr h1
    have e2 := (nearRuleB_iff (commentBlob comments)).mpr h2
    simp only [Bool.or_eq_true] at e2
    simp [refine_verdict_by_text, e1, e2]
  · have e1 : (ok_whitelist.any fun w => w != "" && strContains (commentBlob comments) w)
        = false := by
      simpa using (whitelistAny_iff ok_whitelist (commentBlob comments)).not.mpr h1
    have e2 : (neg_after_search (commentBlob comments) ||
        neg_before_search (commentBlob comments) ||
        pos_near_search (commentBlob comments)) = false := by
      simpa using (nearRuleB_iff (commentBlob comments)).not.mpr h2
    have e3 := (pos_any_iff (commentBlob comments)).mpr h3
    simp only [Bool.or_eq_true, Bool.or_eq_false_iff] at e2
    simp [refine_verdict_by_text, e1, e2.1.1, e2.1.2, e2.2, e3]
  · have e1 : (ok_whitelist.any fun w => w != "" && strContains (commentBlob comments) w)
        = false := by
      simpa using (whitelistAny_iff ok_whitelist (commentBlob comments)).not.mpr h1
    have e2 : (neg_after_search (commentBlob comments) ||
        neg_before_search (commentBlob comments) ||
        pos_near_search (commentBlob comments)) = false := by
      simpa using (nearRuleB_iff (commentBlob comments)).not.mpr h2
    have e3 : pos_any_search (commentBlob comments) = false := by
      simpa using (pos_any_iff (commentBlob comments)).not.mpr h3
    have e4 := (any_kw_iff (commentBlob comments)).mpr h4
    simp only [Bool.or_eq_false_iff] at e2
    simp [refine_verdict_by_text, e1, e2.1.1, e2.1.2, e2.2, e3, e4]
  · have e1 : (ok_whitelist.any fun w => w != "" && strContains (commentBlob comments) w)
        = false := by
      simpa using (whitelistAny_iff ok_whitelist (commentBlob comments)).not.mpr h1
    have e2 : (neg_after_search (commentBlob comments) ||
        neg_before_search (commentBlob comments) ||
        pos_near_search (commentBlob comments)) = false := by
      simpa using (nearRuleB_iff (commentBlob comments)).not.mpr h2
    have e3 : pos_any_search (commentBlob comments) = false := by
      simpa using (pos_any_iff (commentBlob comments)).not.mpr h3
    have e4 : any_kw_search (commentBlob comments) = false := by
      simpa using (any_kw_iff (commentBlob comments)).not.mpr h4
    simp only [Bool.or_eq_false_iff] at e2
    simp [refine_verdict_by_text, e1, e2.1.1, e2.1.2, e2.2, e3, e4]

/-- Witness for C3: stage (b) fires on a keyword negated one character later
("髪の毛" then "は" then "ない"), with an empty whitelist. -/
theorem c3_witness : refine_verdict_by_text "ng" ["髪の毛はない"] [] = "ok" := by
  refine (c3_refine_text_precedence "ng" ["髪の毛はない"] []).2.1 ?_ ?_
  · rintro ⟨w, hw, -⟩
    simp at hw
  · left
    exact ⟨"髪の毛", by decide, "ない", by decide, [], "は".toList, [],
      by decide, by decide, by decide⟩

/-- C2: the forced-recheck stage always wins: if any non-empty recheck-word is
a substring of the space-joined comment blob, the full verdict pipeline
(score threshold, then `refine_verdict_by_text`, then `force_recheck_by_text`)
yields "unknown" for every scores mapping, OK-whitelist and threshold; if no
recheck-word is contained, `force_recheck_by_text` returns its input
unchanged. -/
theorem c2_force_recheck_overrides (scores : List (String × ℚ))
    (comments ok_whitelist recheck_words : List String) (th : ℚ) (v : String) :
    ((∃ w ∈ recheck_words, w ≠ "" ∧ ContainsLit (commentBlob comments) w) →
        verdictPipeline scores comments th ok_whitelist recheck_words = "unknown")
    ∧ ((∀ w ∈ recheck_words, w = "" ∨ ¬ ContainsLit (commentBlob comments) w) →
        force_recheck_by_text v comments recheck_words = v) := by
  constructor
  · intro h
    have e : (recheck_words.any fun w => w != "" && strContains (commentBlob comments) w)
        = true := (whitelistAny_iff recheck_words (commentBlob comments)).mpr h
    simp [verdictPipeline, force_recheck_by_text, e]
  · intro h
    have hne : ¬ WhitelistHit recheck_words (commentBlob comments) := by
      rintro ⟨w, hw, hne, hc⟩
      rcases h w hw with h' | h'
      · exact hne h'
      · exact h' hc
    have e : (recheck_words.any fun w => w != "" && strContains (commentBlob comments) w)
        = false := by
      simpa using (whitelistAny_iff recheck_words (commentBlob comments)).not.mpr hne
    simp [force_recheck_by_text, e]

/-- Witness for C2 at the spec's own precedence example: the blob contains
both the OK-whitelist literal and the recheck literal "要確認", the quality
score is above threshold, and the final verdict is "unknown". -/
theorem c2_witness :
    verdictPipeline [("quality", 9 / 10)] ["要確認: 髪の毛あり"] (6 / 10)
      ["要確認"] ["要確認"] = "unknown" := by
  refine (c2_force_recheck_overrides [("quality", 9 / 10)] ["要確認: 髪の毛あり"]
    ["要確認"] ["要確認"] (6 / 10) "ok").1 ?_
  exact ⟨"要確認", by decide, by decide, [], ": 髪の毛あり".toList, by decide⟩

/-- C4: the score stage returns "ng" exactly when some score value reaches the
effective confidence threshold (the `defaults` value, else the `thresholds`
value, else 0.6), and "ok" otherwise; an empty scores mapping yields "ok". -/
theorem c4_score_threshold (scores : List (String × ℚ)) (defaults : Defaults)
    (thresholds : Thresholds) :
    (scoreVerdict scores (conf_th_effective defaults thresholds) = "ng" ↔
        ∃ p ∈ scores, conf_th_effective defaults thresholds ≤ p.2)
    ∧ (scoreVerdict scores (conf_th_effective defaults thresholds) = "ng" ∨
        scoreVerdict scores (conf_th_effective defaults thresholds) = "ok")
    ∧ scoreVerdict [] (conf_th_effective defaults thresholds) = "ok"
    ∧ (defaults.conf_th = none → thresholds.conf_th = none →
        conf_th_effective defaults thresholds = 6 / 10) := by
  refine ⟨?_, ?_, by simp [scoreVerdict],
    fun h1 h2 => by simp [conf_th_effective, h1, h2]⟩
  · unfold scoreVerdict
    split
    case isTrue h =>
      simp only [List.any_eq_true, decide_eq_true_eq] at h
      simpa using h
    case isFalse h =>
      simp only [List.any_eq_true, decide_eq_true_eq] at h
      simpa using h
  · unfold scoreVerdict
    split
    · left; rfl
    · right; rfl

/-- Witness for C4: with `defaults` supplying 0.6 and a 0.7 quality score the
stage answers "ng". -/
theorem c4_witness :
    scoreVerdict [("quality", 7 / 10)]
      (conf_th_effective ⟨some (6 / 10), none, none⟩ ⟨none, none, none⟩) = "ng" :=
  (c4_score_threshold [("quality", 7 / 10)] ⟨some (6 / 10), none, none⟩
    ⟨none, none, none⟩).1.mpr
    ⟨("quality", 7 / 10), by simp, by norm_num [conf_th_effective]⟩

/-- C10: the effective confidence threshold prefers the `defaults` entry over
the `thresholds` entry; the `thresholds` entry is used only when `defaults`
lacks the key, and 0.6 only when both lack it. -/
theorem c10_conf_th_precedence (defaults : Defaults) (thresholds : Thresholds)
    (a b : ℚ) :
    (defaults.conf_th = some a → thresholds.conf_th = some b →
        conf_th_effective defaults thresholds = a)
    ∧ (defaults.conf_th = some a → conf_th_effective defaults thresholds = a)
    ∧ (defaults.conf_th = none → thresholds.conf_th = some b →
        conf_th_effective defaults thresholds = b)
    ∧ (defaults.conf_th = none → thresholds.conf_th = none →
        conf_th_effective defaults thresholds = 6 / 10) :=
  ⟨fun h1 _ => by simp [conf_th_effective, h1],
   fun h1 => by simp [conf_th_effective, h1],
   fun h1 h2 => by simp [conf_th_effective, h1, h2],
   fun h1 h2 => by simp [conf_th_effective, h1, h2]⟩

/-- Witness for C10: both dicts carry `conf_th` (0.7 vs 0.8) and the
`defaults` value 0.7 wins. -/
theorem c10_witness :
    conf_th_effective ⟨some (7 / 10), none, none⟩ ⟨some (8 / 10), none, none⟩
      = 7 / 10 :=
  (c10_conf_th_precedence ⟨some (7 / 10), none, none⟩ ⟨some (8 / 10), none, none⟩
    (7 / 10) (8 / 10)).1 rfl rfl

deriving instance DecidableEq for Except

/-! ## Orchestration lemmas -/

lemma except_map_ok {E α β : Type} {f : α → β} {e : Except E α} {b : β}
    (h : e.map f = .ok b) : ∃ a, e = .ok a ∧ f a = b := by
  cases e with
  | error e => simp [Except.map] at h
  | ok a => exact ⟨a, rfl, by simpa [Except.map] using h⟩

lemma scoreVerdict_cases (scores : List (String × ℚ)) (th : ℚ) :
    scoreVerdict scores th = "ng" ∨ scoreVerdict scores th = "ok" := by
  unfold scoreVerdict
  split
  · exact Or.inl rfl
  · exact Or.inr rfl

lemma refine_cases (v : String) (comments wl : List String) :
    refine_verdict_by_text v comments wl = "ok" ∨
      refine_verdict_by_text v comments wl = "ng" ∨
      refine_verdict_by_text v comments wl = v := by
  simp only [refine_verdict_by_text]
  split_ifs <;> simp

lemma force_cases (v : String) (comments rw : List String) :
    force_recheck_by_text v comments rw = "unknown" ∨
      force_recheck_by_text v comments rw = v := by
  simp only [force_recheck_by_text]
  split
  · exact Or.inl rfl
  · exact Or.inr rfl

lemma verdictPipeline_mem (scores : List (String × ℚ)) (comments : List String)
    (th : ℚ) (wl rw : List String) :
    verdictPipeline scores comments th wl rw = "ok" ∨
      verdictPipeline scores comments th wl rw = "ng" ∨
      verdictPipeline scores comments th wl rw = "unknown" := by
  unfold verdictPipeline
  rcases force_cases (refine_verdict_by_text (scoreVerdict scores th) comments wl)
      comments rw with h | h
  · exact Or.inr (Or.inr h)
  · rw [h]
    rcases refine_cases (scoreVerdict scores th) comments wl with h' | h' | h'
    · exact Or.inl h'
    · exact Or.inr (Or.inl h')
    · rw [h']
      rcases scoreVerdict_cases scores th with h'' | h''
      · exact Or.inr (Or.inl h'')
      · exact Or.inl h''

lemma analyze_one_ok_spec {env : Env} {nano : OpenAIClient} {thresholds : Thresholds}
    {defaults : Defaults} {i : Nat} {b : Blob} {r : ImageResult}
    (h : _analyze_one env nano thresholds defaults i b = .ok r) :
    r.index = i ∧ r.stage = "nano" ∧
      (r.verdict = "ok" ∨ r.verdict = "ng" ∨ r.verdict = "unknown") := by
  unfold _analyze_one at h
  cases hd : env.decode b.raw with
  | none => rw [hd] at h; exact absurd h (by simp)
  | some probe =>
    rw [hd] at h
    simp only [Except.ok.injEq] at h
    subst h
    exact ⟨rfl, rfl, verdictPipeline_mem _ _ _ _ _⟩

lemma dispatchFrom_length (env : Env) (nano : OpenAIClient) (thresholds : Thresholds)
    (defaults : Defaults) (i : Nat) (bs : List Blob) :
    (dispatchFrom env nano thresholds defaults i bs).length = bs.length := by
  induction bs generalizing i with
  | nil => rfl
  | cons b bs ih => simp [dispatchFrom, ih]

/-- The index carried by a completed future. -/
def resIndex : Except AErr ImageResult → Nat
  | .ok r => r.index
  | .error _ => 0

lemma dispatchFrom_map_resIndex {env : Env} {nano : OpenAIClient}
    {thresholds : Thresholds} {defaults : Defaults} {bs : List Blob} (i : Nat)
    (h : ∀ e ∈ dispatchFrom env nano thresholds defaults i bs, ∃ r, e = .ok r) :
    (dispatchFrom env nano thresholds defaults i bs).map resIndex
      = List.range' i bs.length := by
  induction bs generalizing i with
  | nil => rfl
  | cons b bs ih =>
    obtain ⟨r, hr⟩ := h _ (by rw [dispatchFrom]; exact List.mem_cons_self _ _)
    have hidx := (analyze_one_ok_spec hr).1
    rw [dispatchFrom, List.map_cons, hr, List.length_cons, List.range'_succ]
    rw [ih (i + 1) fun e he => h e (by rw [dispatchFrom]; exact List.mem_cons_of_mem _ he)]
    simp [resIndex, hidx]

lemma mem_dispatchFrom {env : Env} {nano : OpenAIClient} {thresholds : Thresholds}
    {defaults : Defaults} {i : Nat} {bs : List Blob}
    {e : Except AErr ImageResult}
    (he : e ∈ dispatchFrom env nano thresholds defaults i bs) :
    ∃ j b, e = _analyze_one env nano thresholds defaults j b := by
  induction bs generalizing i with
  | nil => cases he
  | cons b bs ih =>
    rw [dispatchFrom] at he
    rcases List.mem_cons.mp he with rfl | he'
    · exact ⟨i, b, rfl⟩
    · exact ih he'

lemma collect_eq_ok (cs : List (Except AErr ImageResult)) (rs : List ImageResult) :
    collect cs = .ok rs ↔ cs = rs.map Except.ok := by
  induction cs generalizing rs with
  | nil =>
    cases rs with
    | nil => simp [collect]
    | cons r rs => simp [collect]
  | cons e cs ih =>
    cases e with
    | error e' =>
      constructor
      · intro h; exact absurd h (by simp [collect])
      · intro h
        cases rs with
        | nil => simp at h
        | cons r rs' => simp at h
    | ok r =>
      constructor
      · intro h
        simp only [collect] at h
        obtain ⟨rs', hcs, hr⟩ := except_map_ok h
        subst hr
        rw [List.map_cons, (ih rs').mp hcs]
      · intro h
        cases rs with
        | nil => simp at h
        | cons r' rs' =>
          simp only [List.map_cons, List.cons.injEq, Except.ok.injEq] at h
          obtain ⟨rfl, hcs⟩ := h
          have hc := (ih rs').mpr hcs
          simp [collect, hc, Except.map]

lemma filterMap_getElem_range {α : Type} (xs : List α) :
    (List.range xs.length).filterMap (fun i => xs[i]?) = xs := by
  induction xs with
  | nil => rfl
  | cons x xs ih =>
    have hc : ((fun i => (x :: xs)[i]?) ∘ Nat.succ) = fun i : Nat => xs[i]? := by
      funext i
      simp
    rw [List.length_cons, List.range_succ_eq_map, List.filterMap_cons]
    simp only [List.getElem?_cons_zero, List.filterMap_map, hc, ih]

lemma reorder_perm {α : Type} {σ : List Nat} {xs : List α}
    (hσ : σ.Perm (List.range xs.length)) : (reorder σ xs).Perm xs := by
  have h := hσ.filterMap fun i => xs[i]?
  rwa [filterMap_getElem_range] at h

lemma sortByIndex_perm (rs : List ImageResult) : (sortByIndex rs).Perm rs :=
  List.perm_insertionSort _ _

lemma sortByIndex_sorted (rs : List ImageResult) :
    List.Sorted (fun a b : ImageResult => a.index ≤ b.index) (sortByIndex rs) := by
  haveI : IsTotal ImageResult fun a b => a.index ≤ b.index :=
    ⟨fun a b => Nat.le_total _ _⟩
  haveI : IsTrans ImageResult fun a b => a.index ≤ b.index :=
    ⟨fun _ _ _ => Nat.le_trans⟩
  exact List.sorted_insertionSort _ _

/-- Core property of a successful `analyze_headless` run: the summary is the
aggregate of the sorted results, the indices of the sorted results are exactly
`0, …, n-1` in order, and every result is a successful `_analyze_one` output. -/
lemma headless_ok_spec {env : Env} {files : List Blob} {thresholds : Thresholds}
    {defaults : Defaults} {api_key : String} {σ : List Nat}
    (hσ : σ.Perm (List.range files.length)) {summary : JobSummary}
    {results : List ImageResult}
    (hret : analyze_headless env files thresholds defaults api_key σ
      = .ok (summary, results)) :
    summary = mkSummary results
    ∧ results.map (fun r => r.index) = List.range files.length
    ∧ ∀ r ∈ results, ∃ j b, _analyze_one env (mkClient "gpt-5-nano" (some api_key))
        thresholds (applyOkWhitelistDefault thresholds defaults) j b = .ok r := by
  unfold analyze_headless at hret
  obtain ⟨rs, hcol, heq⟩ := except_map_ok hret
  obtain ⟨hsum, hres⟩ : mkSummary (sortByIndex rs) = summary ∧ sortByIndex rs = results :=
    Prod.mk.injEq _ _ _ _ ▸ heq
  have hmap := (collect_eq_ok _ _).mp hcol
  have hfutlen : (headlessFutures env files thresholds defaults api_key).length
      = files.length := dispatchFrom_length _ _ _ _ _ _
  have hperm : (reorder σ (headlessFutures env files thresholds defaults api_key)).Perm
      (headlessFutures env files thresholds defaults api_key) :=
    reorder_perm (by rwa [hfutlen])
  rw [hmap] at hperm
  have hallok : ∀ e ∈ headlessFutures env files thresholds defaults api_key,
      ∃ r, e = .ok r := by
    intro e he
    obtain ⟨r, -, rfl⟩ := List.mem_map.mp (hperm.symm.mem_iff.mp he)
    exact ⟨r, rfl⟩
  have hmapidx : (headlessFutures env files thresholds defaults api_key).map resIndex
      = List.range files.length := by
    rw [List.range_eq_range']
    exact dispatchFrom_map_resIndex 0 hallok
  have hidxperm : (results.map fun r => r.index).Perm (List.range files.length) := by
    have h1 := hperm.map resIndex
    rw [hmapidx] at h1
    have h2 : (rs.map Except.ok).map resIndex = rs.map fun r => r.index := by
      simp [List.map_map, Function.comp, resIndex]
    rw [h2] at h1
    have h3 : (results.map fun r => r.index).Perm (rs.map fun r => r.index) := by
      rw [← hres]
      exact (sortByIndex_perm rs).map _
    exact h3.trans h1
  have hsorted : List.Sorted (· ≤ ·) (results.map fun r => r.index) := by
    rw [← hres]
    exact List.pairwise_map.mpr (sortByIndex_sorted rs)
  have hrange_sorted : List.Sorted (· ≤ ·) (List.range files.length) :=
    (List.pairwise_lt_range _).imp fun h => Nat.le_of_lt h
  refine ⟨by rw [← hsum, hres], List.eq_of_perm_of_sorted hidxperm hsorted hrange_sorted, ?_⟩
  intro r hr
  have : Except.ok r ∈ headlessFutures env files thresholds defaults api_key := by
    apply hperm.mem_iff.mp
    exact List.mem_map_of_mem _ (((sortByIndex_perm rs).mem_iff).mp (hres ▸ hr))
  obtain ⟨j, b, hjb⟩ := mem_dispatchFrom this
  exact ⟨j, b, hjb.symm⟩

lemma countP_three (l : List ImageResult)
    (h : ∀ r ∈ l, r.verdict = "ok" ∨ r.verdict = "ng" ∨ r.verdict = "unknown") :
    ((l.countP fun r => r.verdict == "ok") + (l.countP fun r => r.verdict == "ng") +
      (l.countP fun r => r.verdict == "unknown")) = l.length := by
  induction l with
  | nil => simp
  | cons r l ih =>
    have hr := h r (List.mem_cons_self _ _)
    have ih' := ih fun x hx => h x (List.mem_cons_of_mem _ hx)
    rcases hr with h1 | h1 | h1 <;>
      simp [List.countP_cons, h1, ← ih'] <;> omega

/-- C1: whenever `analyze_headless` returns, the result list carries exactly
the indices `0, …, n-1` in ascending order (one result per input position),
every verdict is one of "ok"/"ng"/"unknown", the summary counts are exactly
the partition of the results by verdict, and they sum to the batch size.
`σ` is the worker-pool completion order (any permutation of the positions). -/
theorem c1_batch_result_invariants (env : Env) (files : List Blob)
    (thresholds : Thresholds) (defaults : Defaults) (api_key : String) (σ : List Nat)
    (hσ : σ.Perm (List.range files.length)) (summary : JobSummary)
    (results : List ImageResult)
    (hret : analyze_headless env files thresholds defaults api_key σ
      = .ok (summary, results)) :
    (results.map fun r => r.index) = List.range files.length
    ∧ (∀ r ∈ results, r.verdict = "ok" ∨ r.verdict = "ng" ∨ r.verdict = "unknown")
    ∧ summary.ok = (results.countP fun r => r.verdict == "ok")
    ∧ summary.ng = (results.countP fun r => r.verdict == "ng")
    ∧ summary.unknown = (results.countP fun r => r.verdict == "unknown")
    ∧ summary.ok + summary.ng + summary.unknown = files.length := by
  obtain ⟨hsum, hidx, hmem⟩ := headless_ok_spec hσ hret
  have hv : ∀ r ∈ results,
      r.verdict = "ok" ∨ r.verdict = "ng" ∨ r.verdict = "unknown" := by
    intro r hr
    obtain ⟨j, b, hjb⟩ := hmem r hr
    exact (analyze_one_ok_spec hjb).2.2
  have hlen : results.length = files.length := by
    have h := congrArg List.length hidx
    simpa using h
  subst hsum
  refine ⟨hidx, hv, rfl, rfl, rfl, ?_⟩
  simpa [mkSummary, hlen] using countP_three results hv

/-- Witness environment: no cv2, two decodable images, no API key (dry run). -/
def envW : Env :=
  { hasCV2 := false,
    decode := fun r => if r == 0 || r == 1 then some ⟨none, none, none⟩ else none,
    attempt := fun _ _ => .error "unused" }

def thW : Thresholds := ⟨none, none, none⟩

def dfW : Defaults := ⟨some 1, none, none⟩

def filesW : List Blob := [⟨some "a.jpg", 0⟩, ⟨some "b.jpg", 1⟩]

/-- The run of `analyze_headless` on the witness batch (checked by `decide`
in the witnesses below). -/
def resultsW : List ImageResult :=
  [{ index := 0, file := "0000_a.jpg", labels := [], scores := [("quality", 0)],
     comments := ["（ドライラン）APIキー未設定のため実解析は未実施"], quality_flags := [],
     verdict := "ok", stage := "nano", presence := [] },
   { index := 1, file := "0001_b.jpg", labels := [], scores := [("quality", 0)],
     comments := ["（ドライラン）APIキー未設定のため実解析は未実施"], quality_flags := [],
     verdict := "ok", stage := "nano", presence := [] }]

def summaryW : JobSummary :=
  { ok := 2, ng := 0, unknown := 0,
    counts_by_stage := { nano := 2, mini := 0, full := 0 },
    presence_evidence := [("key", []), ("wifi", []), ("heater", []), ("tv", [])] }

/-- Witness for C1: a concrete two-image dry-run batch collected in reversed
completion order `[1, 0]`. -/
theorem c1_witness :
    ((resultsW.map fun r => r.index) = List.range filesW.length)
    ∧ (∀ r ∈ resultsW, r.verdict = "ok" ∨ r.verdict = "ng" ∨ r.verdict = "unknown")
    ∧ summaryW.ok = (resultsW.countP fun r => r.verdict == "ok")
    ∧ summaryW.ng = (resultsW.countP fun r => r.verdict == "ng")
    ∧ summaryW.unknown = (resultsW.countP fun r => r.verdict == "unknown")
    ∧ summaryW.ok + summaryW.ng + summaryW.unknown = filesW.length :=
  c1_batch_result_invariants envW filesW thW dfW "" [1, 0] (by decide) summaryW
    resultsW (by decide)

lemma isTrueBool_iff (o : Option PVal) :
    isTrueBool o = true ↔ o = some (PVal.pbool true) := by
  cases o with
  | none => simp [isTrueBool]
  | some v =>
    cases v with
    | pbool b => cases b <;> simp [isTrueBool]
    | pnull => simp [isTrueBool]
    | pnum q => simp [isTrueBool]
    | pstr s => simp [isTrueBool]

lemma filterMap_ite {α β : Type} (p : α → Bool) (g : α → β) (l : List α) :
    (l.filterMap fun a => if p a then some (g a) else none) = (l.filter p).map g := by
  induction l with
  | nil => rfl
  | cons a l ih =>
    by_cases h : p a <;> simp [List.filterMap_cons, List.filter_cons, h, ih]

/-- C8: whenever `analyze_headless` returns, the presence-evidence mapping of
the summary has exactly the keys "key", "wifi", "heater", "tv" in that order;
an index is in an amenity's evidence list iff the result with that index has
presence entry boolean `True` for that amenity (null, false, missing keys and
non-boolean values are excluded); and every evidence list is strictly
ascending. -/
theorem c8_presence_evidence (env : Env) (files : List Blob)
    (thresholds : Thresholds) (defaults : Defaults) (api_key : String) (σ : List Nat)
    (hσ : σ.Perm (List.range files.length)) (summary : JobSummary)
    (results : List ImageResult)
    (hret : analyze_headless env files thresholds defaults api_key σ
      = .ok (summary, results)) :
    summary.presence_evidence.map Prod.fst = ["key", "wifi", "heater", "tv"]
    ∧ ∀ k l, (k, l) ∈ summary.presence_evidence →
        (∀ i : Nat, i ∈ l ↔ ∃ r ∈ results, r.index = i ∧
          pyGet r.presence k = some (PVal.pbool true))
        ∧ l.Pairwise (· < ·) := by
  obtain ⟨hsum, hidx, -⟩ := headless_ok_spec hσ hret
  subst hsum
  constructor
  · simp [mkSummary, presence_evidence_of, presenceKeys, List.map_map, Function.comp]
  · intro k l hkl
    simp only [mkSummary, presence_evidence_of] at hkl
    obtain ⟨k', hk', heq⟩ := List.mem_map.mp hkl
    have h1 : k = k' := (congrArg Prod.fst heq).symm
    subst h1
    have h2 : l = results.filterMap
        fun r => if isTrueBool (pyGet r.presence k) then some r.index else none :=
      (congrArg Prod.snd heq).symm
    subst h2
    constructor
    · intro i
      simp only [List.mem_filterMap]
      constructor
      · rintro ⟨r, hr, hif⟩
        by_cases hb : isTrueBool (pyGet r.presence k) = true
        · rw [if_pos hb] at hif
          exact ⟨r, hr, Option.some.inj hif, (isTrueBool_iff _).mp hb⟩
        · rw [if_neg hb] at hif
          cases hif
      · rintro ⟨r, hr, rfl, hp⟩
        exact ⟨r, hr, by rw [if_pos ((isTrueBool_iff _).mpr hp)]⟩
    · rw [filterMap_ite]
      have hsub : ((results.filter fun r => isTrueBool (pyGet r.presence k)).map
          fun r => r.index).Sublist (results.map fun r => r.index) :=
        (List.filter_sublist _).map _
      rw [hidx] at hsub
      exact List.Pairwise.sublist hsub (List.pairwise_lt_range _)

/-- Witness environment for C8: an available client whose response marks only
"key" as boolean true ("wifi" false, "heater" null, "tv" a number). -/
def respW8 : ClassResp :=
  { labels := ["hair_dust"], scores := [("quality", 0)], comments := [],
    presence := [("key", PVal.pbool true), ("wifi", PVal.pbool false),
                 ("heater", PVal.pnull), ("tv", PVal.pnum 1)] }

def envW8 : Env :=
  { hasCV2 := false,
    decode := fun _ => some ⟨none, none, none⟩,
    attempt := fun _ _ => .ok respW8 }

def filesW8 : List Blob := [⟨none, 5⟩]

def resultsW8 : List ImageResult :=
  [{ index := 0, file := "0000_0000.jpg", labels := ["hair_dust"],
     scores := [("quality", 0)], comments := [], quality_flags := [],
     verdict := "ok", stage := "nano",
     presence := [("key", PVal.pbool true), ("wifi", PVal.pbool false),
                  ("heater", PVal.pnull), ("tv", PVal.pnum 1)] }]

def summaryW8 : JobSummary :=
  { ok := 1, ng := 0, unknown := 0,
    counts_by_stage := { nano := 1, mini := 0, full := 0 },
    presence_evidence := [("key", [0]), ("wifi", []), ("heater", []), ("tv", [])] }

/-- Witness for C8: a one-image batch with mixed presence values; only the
strict boolean `true` (for "key") contributes evidence. -/
theorem c8_witness :
    summaryW8.presence_evidence.map Prod.fst = ["key", "wifi", "heater", "tv"] ∧
      (0 ∈ ([0] : List Nat) ↔ ∃ r ∈ resultsW8, r.index = 0 ∧
        pyGet r.presence "key" = some (PVal.pbool true)) := by
  have h := c8_presence_evidence envW8 filesW8 thW dfW "sk" [0] (by decide)
    summaryW8 resultsW8 (by decide)
  exact ⟨h.1, (h.2 "key" [0] (by decide)).1 0⟩

/-! ## C5: decode failures -/

lemma analyze_one_decode_error {env : Env} {nano : OpenAIClient}
    {thresholds : Thresholds} {defaults : Defaults} {i : Nat} {b : Blob}
    (h : env.decode b.raw = none) :
    _analyze_one env nano thresholds defaults i b = .error AErr.decodeError := by
  simp [_analyze_one, h]

lemma mem_dispatch_error {env : Env} {nano : OpenAIClient} {thresholds : Thresholds}
    {defaults : Defaults} {bs : List Blob} {b : Blob} (i : Nat) (hb : b ∈ bs)
    (h : env.decode b.raw = none) :
    Except.error AErr.decodeError ∈ dispatchFrom env nano thresholds defaults i bs := by
  induction bs generalizing i with
  | nil => cases hb
  | cons x xs ih =>
    rw [dispatchFrom]
    rcases List.mem_cons.mp hb with rfl | hb'
    · rw [analyze_one_decode_error h]
      exact List.mem_cons_self _ _
    · exact List.mem_cons_of_mem _ (ih _ hb')

lemma collect_error_of_mem {cs : List (Except AErr ImageResult)}
    (h : Except.error AErr.decodeError ∈ cs) :
    collect cs = .error AErr.decodeError := by
  induction cs with
  | nil => cases h
  | cons e cs ih =>
    rcases List.mem_cons.mp h with rfl | h'
    · simp [collect]
    · cases e with
      | error e' => cases e'; simp [collect]
      | ok r => simp [collect, ih h', Except.map]

/-- Amended C5: a decode failure is NOT recovered locally.  `load_and_resize`
(line 253) is not guarded by try/except, so the exception escapes
`_analyze_one`, `fu.result()` (line 392) re-raises it, and the whole batch
aborts with no result list; the other images' results are discarded. -/
theorem c5_decode_error_aborts_batch (env : Env) (files : List Blob)
    (thresholds : Thresholds) (defaults : Defaults) (api_key : String)
    (σ : List Nat) (b : Blob) (hσ : σ.Perm (List.range files.length))
    (hb : b ∈ files) (hdec : env.decode b.raw = none) :
    analyze_headless env files thresholds defaults api_key σ
      = .error AErr.decodeError := by
  unfold analyze_headless
  have hmem : Except.error AErr.decodeError
      ∈ headlessFutures env files thresholds defaults api_key :=
    mem_dispatch_error 0 hb hdec
  have hlen : (headlessFutures env files thresholds defaults api_key).length
      = files.length := dispatchFrom_length _ _ _ _ _ _
  have hmem2 : Except.error AErr.decodeError
      ∈ reorder σ (headlessFutures env files thresholds defaults api_key) :=
    (reorder_perm (by rwa [hlen])).mem_iff.mpr hmem
  rw [collect_error_of_mem hmem2]
  rfl

/-- Environment for the C5 counterexample: payload 0 decodes, payload 1 does
not (PIL raises on it). -/
def envC5 : Env :=
  { hasCV2 := false,
    decode := fun r => if r == 0 then some ⟨none, none, none⟩ else none,
    attempt := fun _ _ => .error "unused" }

/-- Counterexample for C5 as stated: a two-image batch in which only the
second image is undecodable does NOT return a result list with the other
image recovered — `analyze_headless` raises (models the uncaught exception),
so the batch is aborted and no image appears in any returned result list. -/
theorem c5_counterexample :
    envC5.decode 0 = some ⟨none, none, none⟩ ∧ envC5.decode 1 = none ∧
      analyze_headless envC5 [⟨some "good.jpg", 0⟩, ⟨some "bad.jpg", 1⟩]
        thW dfW "" [0, 1] = .error AErr.decodeError :=
  ⟨rfl, rfl, by decide⟩

/-- Witness for the amended C5 theorem at a concrete batch (completion order
reversed relative to the counterexample's). -/
theorem c5_witness :
    analyze_headless envC5 [⟨some "good.jpg", 0⟩, ⟨some "bad.jpg", 1⟩]
      thW dfW "" [1, 0] = .error AErr.decodeError :=
  c5_decode_error_aborts_batch envC5 [⟨some "good.jpg", 0⟩, ⟨some "bad.jpg", 1⟩]
    thW dfW "" [1, 0] ⟨some "bad.jpg", 1⟩ (by decide) (by decide) rfl

/-! ## C6, C7: availability gate and retry policy -/

/-- C6: when the client is unavailable (no credential or no model name), the
remote call is never consulted — the per-image analysis is independent of the
classification oracle — and the image gets the deterministic dry-run
placeholder (empty labels, a single zero quality score, exactly one
explanatory comment, empty presence); a decodable image still yields a
result, so the batch proceeds.  An empty (stripped) api key or model name
makes the client unavailable. -/
theorem c6_unavailable_uses_placeholder (e : Env)
    (A A' : Nat → Nat → Except String ClassResp) (nano : OpenAIClient)
    (thresholds : Thresholds) (defaults : Defaults) (i : Nat) (b : Blob)
    (h : nano.available = false) :
    _analyze_one { e with attempt := A } nano thresholds defaults i b
      = _analyze_one { e with attempt := A' } nano thresholds defaults i b
    ∧ (∀ r, _analyze_one { e with attempt := A } nano thresholds defaults i b
          = .ok r →
        r.labels = [] ∧ r.scores = [("quality", 0)] ∧
          r.comments = ["（ドライラン）APIキー未設定のため実解析は未実施"] ∧ r.presence = [])
    ∧ ((e.decode b.raw).isSome = true →
        ∃ r, _analyze_one { e with attempt := A } nano thresholds defaults i b
          = .ok r)
    ∧ (∀ name key : String, pyStrip key = "" ∨ pyStrip name = "" →
        (mkClient name (some key)).available = false) := by
  refine ⟨?_, ?_, ?_, ?_⟩
  · cases hd : e.decode b.raw <;> simp [_analyze_one, hd, h]
  · intro r hr
    cases hd : e.decode b.raw with
    | none => simp [_analyze_one, hd] at hr
    | some probe =>
      simp only [_analyze_one, hd, h, Bool.false_eq_true, if_false,
        Except.ok.injEq] at hr
      subst hr
      exact ⟨rfl, rfl, rfl, rfl⟩
  · intro hs
    obtain ⟨probe, hd⟩ := Option.isSome_iff_exists.mp hs
    cases hres : _analyze_one { e with attempt := A } nano thresholds defaults i b with
    | error e' => simp [_analyze_one, hd] at hres
    | ok r => exact ⟨r, rfl⟩
  · intro name key hk
    rcases hk with hk | hk <;>
      simp [mkClient, OpenAIClient.available, hk]

/-- Witness for C6: with an empty api key the per-image analysis does not
depend on the classification oracle. -/
theorem c6_witness :
    _analyze_one { envW with attempt := fun _ _ => .ok respW8 }
        (mkClient "gpt-5-nano" (some "")) thW dfW 0 ⟨some "a.jpg", 0⟩
      = _analyze_one { envW with attempt := fun _ _ => .error "x" }
        (mkClient "gpt-5-nano" (some "")) thW dfW 0 ⟨some "a.jpg", 0⟩ :=
  (c6_unavailable_uses_placeholder envW (fun _ _ => .ok respW8)
    (fun _ _ => .error "x") (mkClient "gpt-5-nano" (some "")) thW dfW 0
    ⟨some "a.jpg", 0⟩ (by decide)).1

/-- C7: the classification call makes at most 3 attempts (the outcome depends
only on attempts 0, 1, 2), returns the first success, re-raises the last
failure after 3 failures; a failure of the whole call is caught by the
per-image worker, which degrades that image to the failure placeholder
(empty labels, zero quality score, one "nano失敗: _" comment, empty presence)
and still returns a result, so the batch is not aborted.  The backoff waits
are `max(max(0,1), min(2^(n-1), 30))`: the first wait is 1 time unit and all
waits lie in `[1, 30]`. -/
theorem c7_retry_policy (c : OpenAIClient) (A : Nat → Except String ClassResp)
    (hc : c.available = true) :
    (∀ A' : Nat → Except String ClassResp, (∀ n, n < 3 → A n = A' n) →
        OpenAIClient.analyze_one c A = OpenAIClient.analyze_one c A')
    ∧ (∀ r, A 0 = .ok r → OpenAIClient.analyze_one c A = .ok r)
    ∧ (∀ e0 r, A 0 = .error e0 → A 1 = .ok r →
        OpenAIClient.analyze_one c A = .ok r)
    ∧ (∀ e0 e1 r, A 0 = .error e0 → A 1 = .error e1 → A 2 = .ok r →
        OpenAIClient.analyze_one c A = .ok r)
    ∧ (∀ e0 e1 e2, A 0 = .error e0 → A 1 = .error e1 → A 2 = .error e2 →
        OpenAIClient.analyze_one c A = .error e2)
    ∧ (∀ (env : Env) (thresholds : Thresholds) (defaults : Defaults) (i : Nat)
        (b : Blob) (probe : QualityProbe) (e2 : String),
        env.decode b.raw = some probe →
        OpenAIClient.analyze_one c (env.attempt b.raw) = .error e2 →
        ∃ r, _analyze_one env c thresholds defaults i b = .ok r ∧
          r.labels = [] ∧ r.scores = [("quality", 0)] ∧
          r.comments = ["nano失敗: " ++ e2] ∧ r.presence = [])
    ∧ (retryWait 1 = 1 ∧ ∀ n, 1 ≤ retryWait n ∧ retryWait n ≤ 30) := by
  refine ⟨?_, ?_, ?_, ?_, ?_, ?_, ?_⟩
  · intro A' hAA
    unfold OpenAIClient.analyze_one retry3
    simp only [hc, if_true]
    rw [hAA 0 (by omega), hAA 1 (by omega), hAA 2 (by omega)]
  · intro r h0
    unfold OpenAIClient.analyze_one retry3
    simp [hc, h0]
  · intro e0 r h0 h1
    unfold OpenAIClient.analyze_one retry3
    simp [hc, h0, h1]
  · intro e0 e1 r h0 h1 h2
    unfold OpenAIClient.analyze_one retry3
    simp [hc, h0, h1, h2]
  · intro e0 e1 e2 h0 h1 h2
    unfold OpenAIClient.analyze_one retry3
    simp [hc, h0, h1, h2]
  · intro env thresholds defaults i b probe e2 hd herr
    cases hres : _analyze_one env c thresholds defaults i b with
    | error e' => simp [_analyze_one, hd] at hres
    | ok r =>
      refine ⟨r, rfl, ?_⟩
      simp only [_analyze_one, hd, hc, if_true, herr, Except.ok.injEq] at hres
      subst hres
      exact ⟨rfl, rfl, rfl, rfl⟩
  · constructor
    · norm_num [retryWait, wait_exponential]
    · intro n
      have h1 : retryWait n = max 1 (min ((2 : ℚ) ^ (n - 1)) 30) := by
        norm_num [retryWait, wait_exponential]
      rw [h1]
      exact ⟨le_max_left _ _, max_le (by norm_num) (min_le_right _ _)⟩

def cW7 : OpenAIClient := mkClient "gpt-4o" (some "sk")

def attemptW7 : Nat → Except String ClassResp
  | 0 => .error "e0"
  | 1 => .error "e1"
  | _ => .ok respW8

/-- Witness for C7: two failures then a success on the third attempt returns
the successful structured response. -/
theorem c7_witness : OpenAIClient.analyze_one cW7 attemptW7 = .ok respW8 :=
  (c7_retry_policy cW7 attemptW7 (by decide)).2.2.2.1 "e0" "e1" respW8 rfl rfl rfl

/-! ## C9: quality flags -/

lemma mem_darkOverSteps (p : QualityProbe) (flags : List String) (f : String) :
    f ∈ darkOverSteps p flags ↔
      f ∈ flags
      ∨ (f = "dark" ∧ ∃ m, p.meanLum = some m ∧ m < 60)
      ∨ (f = "overexpose" ∧ p.meanLum.isSome = true ∧
          ∃ o, p.overFrac = some o ∧ 2 / 5 < o) := by
  unfold darkOverSteps
  cases hm : p.meanLum with
  | none => simp
  | some m =>
    cases ho : p.overFrac with
    | none => by_cases hd : m < 60 <;> simp [hd]
    | some o =>
      by_cases hd : m < 60 <;> by_cases hov : (2 : ℚ) / 5 < o <;>
        simp [hd, hov]

/-- Counterexample for C9 as stated: with cv2 available, an image whose edge
variance is 50 (below 80) and whose mean-luminance evaluation raises keeps
the already-appended "blur" flag — the `except` clause returns the flags
accumulated so far, not an empty flag set. -/
theorem c9_counterexample :
    (⟨some 50, none, none⟩ : QualityProbe).meanLum = none ∧
      _calc_basic_quality_flags true ⟨some 50, none, none⟩ = ["blur"] ∧
      _calc_basic_quality_flags true ⟨some 50, none, none⟩ ≠ [] :=
  ⟨rfl, by decide, by decide⟩

/-- Amended C9: the flag set is a subset of \x7bblur, dark, overexpose\x7d;
"blur" occurs iff cv2 is available and the edge variance is below 80; "dark"
occurs iff the preceding cv2 step did not raise and the mean luminance is
below 60; "overexpose" occurs iff no preceding step raised and the bright
fraction exceeds 0.40.  An internal error ends flag computation early and
keeps (only) the flags appended before it — possibly a non-empty prefix —
and never fails the image. -/
theorem c9_quality_flags (hasCV2 : Bool) (p : QualityProbe) :
    (∀ f ∈ _calc_basic_quality_flags hasCV2 p,
        f = "blur" ∨ f = "dark" ∨ f = "overexpose")
    ∧ ("blur" ∈ _calc_basic_quality_flags hasCV2 p ↔
        hasCV2 = true ∧ ∃ v, p.lapVar = some v ∧ v < 80)
    ∧ ("dark" ∈ _calc_basic_quality_flags hasCV2 p ↔
        (hasCV2 = true → p.lapVar.isSome = true) ∧ ∃ m, p.meanLum = some m ∧ m < 60)
    ∧ ("overexpose" ∈ _calc_basic_quality_flags hasCV2 p ↔
        (hasCV2 = true → p.lapVar.isSome = true) ∧ p.meanLum.isSome = true ∧
          ∃ o, p.overFrac = some o ∧ 2 / 5 < o) := by
  unfold _calc_basic_quality_flags
  cases hasCV2 with
  | false =>
    refine ⟨?_, ?_, ?_, ?_⟩
    · intro f hf
      rw [if_neg (by simp)] at hf
      rcases (mem_darkOverSteps p [] f).mp hf with h | h | h
      · cases h
      · exact Or.inr (Or.inl h.1)
      · exact Or.inr (Or.inr h.1)
    · simp [mem_darkOverSteps]
    · simp [mem_darkOverSteps]
    · simp [mem_darkOverSteps]
  | true =>
    cases hv : p.lapVar with
    | none =>
      refine ⟨?_, ?_, ?_, ?_⟩ <;> simp [hv]
    | some v =>
      by_cases hb : v < 80
      · refine ⟨?_, ?_, ?_, ?_⟩
        · intro f hf
          rw [if_pos rfl] at hf
          rcases (mem_darkOverSteps p _ f).mp hf with h | h | h
          · simp only [if_pos hb, List.mem_singleton] at h
            exact Or.inl h
          · exact Or.inr (Or.inl h.1)
          · exact Or.inr (Or.inr h.1)
        · simp [mem_darkOverSteps, hb, hv]
        · simp [mem_darkOverSteps, hb, hv]
        · simp [mem_darkOverSteps, hb, hv]
      · refine ⟨?_, ?_, ?_, ?_⟩
        · intro f hf
          rw [if_pos rfl] at hf
          rcases (mem_darkOverSteps p _ f).mp hf with h | h | h
          · simp only [if_neg hb] at h
            cases h
          · exact Or.inr (Or.inl h.1)
          · exact Or.inr (Or.inr h.1)
        · simp [mem_darkOverSteps, hb, hv]
        · simp [mem_darkOverSteps, hb, hv]
        · simp [mem_darkOverSteps, hb, hv]

/-- Witness for the amended C9: without cv2, mean luminance 40 yields the
"dark" flag. -/
theorem c9_witness :
    "dark" ∈ _calc_basic_quality_flags false ⟨none, some 40, none⟩ :=
  (c9_quality_flags false ⟨none, some 40, none⟩).2.2.1.mpr
    ⟨fun h => (Bool.false_ne_true h).elim, 40, rfl, by norm_num⟩
